import Mathlib

/-!
# Verification of the "Open Link in New Tab" extension core logic

A shallow embedding of the extension's URL lexer (`src/utils/urlChecker.ts`),
the intent arbiter's message handling and opening queue (`src/background.ts`),
and the page-side click classifier (content script), together with theorems
settling the specified properties.

Strings are processed as `List Char`; JavaScript string primitives
(`trim`, `split(/\r?\n/)`, case-insensitive regex tests) are embedded with
their JS semantics.
-/

namespace OpenLink

/-- The whitespace set recognised by JavaScript `String.prototype.trim` and by
the regex class `\s`: tab, LF, VT, FF, CR, space, NBSP, Ogham space,
the Unicode `Zs` range `U+2000`–`U+200A`, line/paragraph separators,
narrow NBSP, math space, ideographic space, and BOM. -/
def jsWs (c : Char) : Bool :=
  c.val = 9 || c.val = 10 || c.val = 11 || c.val = 12 || c.val = 13 ||
  c.val = 32 || c.val = 160 || c.val = 5760 ||
  (8192 ≤ c.val && c.val ≤ 8202) ||
  c.val = 8232 || c.val = 8233 || c.val = 8239 || c.val = 8287 ||
  c.val = 12288 || c.val = 65279

/-- JavaScript `String.prototype.trim` on a character list: drop leading
whitespace, then drop trailing whitespace (via reverse). -/
def jsTrim (cs : List Char) : List Char :=
  (((cs.dropWhile jsWs).reverse.dropWhile jsWs)).reverse

/-- JavaScript `String.prototype.trim`. -/
def jsTrimStr (s : String) : String :=
  ⟨jsTrim s.data⟩

/-- JavaScript `text.split(/\r?\n/)`: each `\n` or `\r\n` is a separator;
a lone `\r` is not. Mirrors the splitting in `extractUrls`. -/
def splitLinesAux : List Char → List Char → List (List Char)
  | [], acc => [acc.reverse]
  | '\r' :: '\n' :: rest, acc => acc.reverse :: splitLinesAux rest []
  | '\n' :: rest, acc => acc.reverse :: splitLinesAux rest []
  | c :: rest, acc => splitLinesAux rest (c :: acc)

/-- JavaScript `text.split(/\r?\n/)` on a string. -/
def splitLines (s : String) : List String :=
  (splitLinesAux s.data []).map fun cs => ⟨cs⟩

/-- Case-insensitive literal-prefix test: does `s`, lowercased
(ASCII `A–Z` only, which is exactly the canonicalisation the source's
`/i` regex flag performs on the ASCII-only patterns involved), start with
the (lowercase) pattern `pat`? -/
def startsWithCI (pat : List Char) (s : List Char) : Bool :=
  pat.isPrefixOf (s.map Char.toLower)

/-- The test `/^(https?|file):\/\//i.test(s)`: `http` + optional `s` + `://`,
or `file://`, case-insensitively, at the start of the string. -/
def hasExplicitScheme (cs : List Char) : Bool :=
  startsWithCI "http://".data cs || startsWithCI "https://".data cs ||
  startsWithCI "file://".data cs

/-- The test `/^localhost(:\d+)?/i.test(s)`.  Because the `(:\d+)?` group is
optional and the regex is unanchored at the right, the test succeeds exactly
when the string starts (case-insensitively) with `localhost`. -/
def hasLocalhostStart (cs : List Char) : Bool :=
  startsWithCI "localhost".data cs

/-- The `normalizeUrl` from `src/utils/urlChecker.ts`: trim; if the trimmed string
already carries an `http`/`https`/`file` scheme return it unchanged; if it
starts with `localhost` prefix `http://`; otherwise prefix `https://`. -/
def normalizeUrl (url : String) : String :=
  let trimmedUrl := jsTrim url.data
  if hasExplicitScheme trimmedUrl then ⟨trimmedUrl⟩
  else if hasLocalhostStart trimmedUrl then ⟨'h' :: 't' :: 't' :: 'p' :: ':' :: '/' :: '/' :: trimmedUrl⟩
  else ⟨'h' :: 't' :: 't' :: 'p' :: 's' :: ':' :: '/' :: '/' :: trimmedUrl⟩

example : normalizeUrl "example.com" = "https://example.com" := by decide
example : normalizeUrl "localhost:8080/x" = "http://localhost:8080/x" := by decide
example : normalizeUrl " http://a.com " = "http://a.com" := by decide
example : normalizeUrl "FILE://x" = "FILE://x" := by decide

/-!
## A small backtracking matcher for the three URL regexes

`isValidUrl` tests one of three regex patterns against the trimmed text.
A matcher maps an input to the list of all possible remainders after a
match; `RegExp.test` with a `^`-anchored, `$`-less pattern succeeds iff
the remainder list is non-empty (prefix match), and with a `$`-terminated
pattern iff some remainder is empty (full match).  Case-insensitivity
(`/i`) is handled by lowercasing the input (ASCII-only, which is the
canonicalisation JS applies to the ASCII-only classes in these patterns)
and writing the patterns in lowercase. -/

/-- A nondeterministic matcher: all possible remainders of a match. -/
def Matcher : Type := List Char → List (List Char)

/-- Match a single character satisfying `p`. -/
def mChar (p : Char → Bool) : Matcher := fun s =>
  match s with
  | [] => []
  | c :: rest => if p c then [rest] else []

/-- Match a literal character sequence. -/
def mLit (pat : List Char) : Matcher := fun s =>
  if pat.isPrefixOf s then [s.drop pat.length] else []

/-- Sequencing of matchers. -/
def mSeq (a b : Matcher) : Matcher := fun s => (a s).flatMap b

/-- Alternation of matchers. -/
def mAlt (a b : Matcher) : Matcher := fun s => a s ++ b s

/-- Optional group `(...)?`. -/
def mOpt (a : Matcher) : Matcher := fun s => s :: a s

/-- Kleene star with fuel.  Every starred group in the source's patterns
consumes at least one character per iteration, so fuel `s.length` with the
strict-progress guard matches exactly the regex semantics. -/
def mStarFuel (a : Matcher) : Nat → Matcher
  | 0 => fun s => [s]
  | n + 1 => fun s =>
      s :: ((a s).filter (fun r => r.length < s.length)).flatMap (mStarFuel a n)

/-- Kleene star `(...)*`. -/
def mStar (a : Matcher) : Matcher := fun s => mStarFuel a s.length s

/-- The `(...)+` as one copy followed by a star. -/
def mPlus (a : Matcher) : Matcher := mSeq a (mStar a)

/-- Length of the longest run of `p`-satisfying characters at the head. -/
def leadRun (p : Char → Bool) : List Char → Nat
  | [] => 0
  | c :: rest => if p c then leadRun p rest + 1 else 0

/-- Bounded character-class repetition `[...]{lo,hi}`: consume between `lo`
and `hi` leading characters satisfying `p`. -/
def mRepChar (p : Char → Bool) (lo hi : Nat) : Matcher := fun s =>
  let r := min (leadRun p s) hi
  ((List.range (r + 1)).filter (fun k => lo ≤ k)).map (fun k => s.drop k)

/-- The `[0-9]`, the regex class `\d`. -/
def isDigitC (c : Char) : Bool := '0' ≤ c && c ≤ '9'

/-- The `[a-zA-Z0-9]` on lowercased input. -/
def isAlnumC (c : Char) : Bool := ('a' ≤ c && c ≤ 'z') || isDigitC c

/-- The `[-a-zA-Z0-9]` on lowercased input. -/
def isAlnumHyphenC (c : Char) : Bool := c = '-' || isAlnumC c

/-- The `[^/\s]`: anything but a slash or JS whitespace. -/
def isPathC (c : Char) : Bool := !(c = '/' || jsWs c)

/-- The `(https?:\/\/|file:\/\/|www\.)`. -/
def mSchemeGroup : Matcher :=
  mAlt (mSeq (mLit "http".data) (mSeq (mOpt (mLit "s".data)) (mLit "://".data)))
    (mAlt (mLit "file://".data) (mLit "www.".data))

/-- The `\d{1,3}\.\d{1,3}\.\d{1,3}\.\d{1,3}`. -/
def mIpv4 : Matcher :=
  mSeq (mRepChar isDigitC 1 3) (mSeq (mLit ".".data)
    (mSeq (mRepChar isDigitC 1 3) (mSeq (mLit ".".data)
      (mSeq (mRepChar isDigitC 1 3) (mSeq (mLit ".".data)
        (mRepChar isDigitC 1 3))))))

/-- The `\.[a-zA-Z0-9][-a-zA-Z0-9]*`: one dot-separated label. -/
def mDotLabel : Matcher :=
  mSeq (mLit ".".data) (mSeq (mChar isAlnumC) (mStar (mChar isAlnumHyphenC)))

/-- The `[a-zA-Z0-9][-a-zA-Z0-9]*(\.[a-zA-Z0-9][-a-zA-Z0-9]*)+`: the standard
pattern's domain shape (at least one dot). -/
def mDomainStd : Matcher :=
  mSeq (mChar isAlnumC) (mSeq (mStar (mChar isAlnumHyphenC)) (mPlus mDotLabel))

/-- The `[a-zA-Z0-9][-a-zA-Z0-9]*(\.[a-zA-Z0-9][-a-zA-Z0-9]*)*`: the relaxed
pattern's domain shape (single-word hostnames allowed). -/
def mDomainRelaxed : Matcher :=
  mSeq (mChar isAlnumC) (mSeq (mStar (mChar isAlnumHyphenC)) (mStar mDotLabel))

/-- The `(:\d+)?`. -/
def mPortOpt : Matcher := mOpt (mSeq (mLit ":".data) (mPlus (mChar isDigitC)))

/-- The `(\/[^/\s]*)*`. -/
def mPathStar : Matcher := mStar (mSeq (mLit "/".data) (mStar (mChar isPathC)))

/-- The full standard pattern
`^(https?:\/\/|file:\/\/|www\.)?(localhost|IPv4|domain)(:\d+)?(\/[^/\s]*)*`. -/
def mStandard : Matcher :=
  mSeq (mOpt mSchemeGroup)
    (mSeq (mAlt (mLit "localhost".data) (mAlt mIpv4 mDomainStd))
      (mSeq mPortOpt mPathStar))

/-- The full relaxed pattern; its alternation puts the domain shape first
and it is `$`-anchored (full-string match). -/
def mRelaxed : Matcher :=
  mSeq (mOpt mSchemeGroup)
    (mSeq (mAlt mDomainRelaxed (mAlt (mLit "localhost".data) mIpv4))
      (mSeq mPortOpt mPathStar))

/-- The `[-a-zA-Z0-9@:%._\+~#=]` on lowercased input (strict pattern, part 1). -/
def isStrictHostC (c : Char) : Bool :=
  isAlnumHyphenC c || c = '@' || c = ':' || c = '%' || c = '.' || c = '_' ||
  c = '+' || c = '~' || c = '#' || c = '='

/-- The `[a-zA-Z0-9()]` on lowercased input (strict pattern, TLD part). -/
def isStrictTldC (c : Char) : Bool := isAlnumC c || c = '(' || c = ')'

/-- The regex word-character class `\w` on lowercased input. -/
def isWordC (c : Char) : Bool := isAlnumC c || c = '_'

/-- The `\b` condition at a position: the word-ness of the character before
the position differs from the word-ness of the character after it (end of
input counts as a non-word character). -/
def boundaryOk (prev : Char) : List Char → Bool
  | [] => isWordC prev
  | c :: _ => isWordC prev != isWordC c

/-- The `[a-zA-Z0-9()]{1,6}\b`: the strict pattern's TLD repetition followed by
a word boundary; implemented by enumerating the repetition count and
checking the boundary against the last consumed character. -/
def mStrictTldBoundary : Matcher := fun s =>
  let r := min (leadRun isStrictTldC s) 6
  ((List.range (r + 1)).filter (fun k => 1 ≤ k)).flatMap (fun k =>
    match s.get? (k - 1) with
    | some prev => if boundaryOk prev (s.drop k) then [s.drop k] else []
    | none => [])

/-- The `[-a-zA-Z0-9()@:%_\+.~#?&//=]` (strict pattern trailing class). -/
def isStrictTrailC (c : Char) : Bool :=
  isAlnumHyphenC c || c = '(' || c = ')' || c = '@' || c = ':' || c = '%' ||
  c = '_' || c = '+' || c = '.' || c = '~' || c = '#' || c = '?' || c = '&' ||
  c = '/' || c = '='

/-- The full strict pattern
`^(https?:\/\/|file:\/\/|www\.)([-a-zA-Z0-9@:%._\+~#=]{1,256}\.[a-zA-Z0-9()]{1,6})\b([-a-zA-Z0-9()@:%_\+.~#?&//=]*)`.
The scheme group is mandatory here. -/
def mStrict : Matcher :=
  mSeq mSchemeGroup
    (mSeq (mRepChar isStrictHostC 1 256)
      (mSeq (mLit ".".data) (mSeq mStrictTldBoundary (mStar (mChar isStrictTrailC)))))

/-- The `pattern.test s` for a `^`-anchored pattern without `$`: prefix match. -/
def regexTestAnchoredStart (m : Matcher) (cs : List Char) : Bool := !(m cs).isEmpty

/-- The `pattern.test s` for a `^...$` pattern: full match. -/
def regexTestFull (m : Matcher) (cs : List Char) : Bool := (m cs).any List.isEmpty

/-- The `isValidUrl` from `src/utils/urlChecker.ts`: trim, reject empty, then
test the sensitivity-selected pattern (strict and standard are prefix
matches; relaxed is `$`-anchored, hence a full match). -/
def isValidUrl (text : String) (patternType : String := "standard") : Bool :=
  let trimmedText := jsTrim text.data
  if trimmedText.isEmpty then false
  else
    let lowered := trimmedText.map Char.toLower
    match patternType with
    | "strict" => regexTestAnchoredStart mStrict lowered
    | "relaxed" => regexTestFull mRelaxed lowered
    | _ => regexTestAnchoredStart mStandard lowered

example : isValidUrl "example.com" = true := by decide
example : isValidUrl "visit example.com today" = false := by decide
example : isValidUrl "example.com today" = true := by decide
example : isValidUrl "" = false := by decide
example : isValidUrl "https://example.com/path?q=1" = true := by decide
example : isValidUrl "localhost:3000" = true := by decide
example : isValidUrl "notexample" = false := by decide
example : isValidUrl "notexample" "relaxed" = true := by decide
example : isValidUrl "notexample x" "relaxed" = false := by decide
example : isValidUrl "www.example.com" "strict" = true := by decide
example : isValidUrl "example.com" "strict" = false := by decide
example : isValidUrl "WWW.Example.COM" = true := by decide

/-!
## Hostname extraction (`new URL(url).hostname`)

`isExcludedDomain` in `src/background.ts` parses the candidate URL with the
platform's WHATWG `URL` constructor and reads its `hostname`; a parse
failure is caught and mapped to "not excluded".  The constructor is an
external platform collaborator, so `parseHostname` below models its
hostname computation for the inputs this extension handles: input
stripping, scheme parsing, the special-scheme authority rules (optional
and repeated slashes), userinfo and port splitting, port range checking,
forbidden host code points, ASCII lowercasing of domains, opaque hosts for
non-special schemes, and the `file:` localhost rule.  Not modelled (all
treated as parse failure or left as-is): IDNA/punycode for non-ASCII
hosts, percent-decoding inside domains, IPv4/IPv6 numeric canonicalisation,
and Windows drive letters in `file:` URLs. -/

/-- C0 controls and space, stripped from both ends by the URL parser. -/
def isC0OrSpace (c : Char) : Bool := c.val ≤ 32

/-- Tab and newline characters, removed everywhere by the URL parser. -/
def isTabOrNewline (c : Char) : Bool := c.val = 9 || c.val = 10 || c.val = 13

/-- URL-parser input preprocessing. -/
def urlPreprocess (cs : List Char) : List Char :=
  let noTabs := cs.filter (fun c => !isTabOrNewline c)
  ((noTabs.dropWhile isC0OrSpace).reverse.dropWhile isC0OrSpace).reverse

/-- ASCII alphabetic character. -/
def isAsciiAlpha (c : Char) : Bool :=
  ('a' ≤ c && c ≤ 'z') || ('A' ≤ c && c ≤ 'Z')

/-- Characters allowed after the first character of a scheme. -/
def isSchemeChar (c : Char) : Bool :=
  isAsciiAlpha c || isDigitC c || c = '+' || c = '-' || c = '.'

/-- Split off a `scheme:` prefix, returning the lowercased scheme and the
remainder after the colon; `none` when the input has no valid scheme
(in which case `new URL` with no base throws). -/
def afterScheme? (cs : List Char) : Option (List Char × List Char) :=
  match cs with
  | [] => none
  | c :: rest =>
    if isAsciiAlpha c then
      let body := rest.takeWhile isSchemeChar
      match rest.drop body.length with
      | ':' :: tail => some ((c :: body).map Char.toLower, tail)
      | _ => none
    else none

/-- The special schemes whose authority uses domain hosts (besides `file`). -/
def specialSchemes : List (List Char) :=
  ["http".data, "https".data, "ws".data, "wss".data, "ftp".data]

/-- Forbidden host code points (tab/newline already stripped). -/
def forbiddenHostC (c : Char) : Bool :=
  c.val = 0 || c = ' ' || c = '#' || c = '/' || c = ':' || c = '<' ||
  c = '>' || c = '?' || c = '@' || c = '[' || c = '\\' || c = ']' ||
  c = '^' || c = '|'

/-- Take the authority part: everything up to the first `/`, `?`, `#`
(and `\` for special schemes). -/
def takeAuthority (cs : List Char) (special : Bool) : List Char :=
  cs.takeWhile fun c =>
    !(c = '/' || c = '?' || c = '#' || (special && c = '\\'))

/-- Drop a `userinfo@` prefix: the host-port part is what follows the
last `@`. -/
def afterLastAt (cs : List Char) : List Char :=
  if cs.contains '@' then (cs.reverse.takeWhile (fun c => c ≠ '@')).reverse
  else cs

/-- Numeric value of a digit string. -/
def digitsToNat (ds : List Char) : Nat :=
  ds.foldl (fun acc c => acc * 10 + (c.val.toNat - 48)) 0

/-- A valid (possibly empty) port string: digits only, value at most 65535. -/
def parsePortDigits (p : List Char) : Bool :=
  p.all isDigitC && (p.isEmpty || digitsToNat p ≤ 65535)

/-- Validate a domain host (special schemes): no forbidden code points, no
percent-encoding, ASCII only; lowercased. -/
def validateDomainHost (h : List Char) : Option (List Char) :=
  if h.any (fun c => forbiddenHostC c || c = '%' || 128 ≤ c.val) then none
  else some (h.map Char.toLower)

/-- Validate an opaque host (non-special schemes): only the forbidden host
code points are rejected; case is preserved. -/
def validateOpaqueHost (h : List Char) : Option (List Char) :=
  if h.any forbiddenHostC then none else some h

/-- Parse a host-port string into a hostname. -/
def parseHostPort (hp : List Char) (special : Bool) (hasAt : Bool) :
    Option (List Char) :=
  match hp with
  | '[' :: rest =>
      let inside := rest.takeWhile (fun c => c ≠ ']')
      match rest.dropWhile (fun c => c ≠ ']') with
      | ']' :: after =>
        let portOk :=
          match after with
          | [] => true
          | ':' :: p => parsePortDigits p
          | _ => false
        if inside.isEmpty || !portOk then none
        else some ('[' :: inside.map Char.toLower ++ [']'])
      | _ => none
  | _ =>
      let host := hp.takeWhile (fun c => c ≠ ':')
      let after := hp.dropWhile (fun c => c ≠ ':')
      let portOk :=
        match after with
        | ':' :: p => parsePortDigits p
        | _ => true
      if !portOk then none
      else if host.isEmpty then
        if special || hasAt || !after.isEmpty then none else some []
      else if special then validateDomainHost host
      else validateOpaqueHost host

/-- Models `new URL(url).hostname` (see the section comment for scope):
`none` when the constructor throws. -/
def parseHostname (url : String) : Option String :=
  let cs := urlPreprocess url.data
  match afterScheme? cs with
  | none => none
  | some (scheme, rest) =>
    if scheme = "file".data then
      match rest with
      | '/' :: '/' :: tail =>
        let auth := takeAuthority tail true
        if auth.isEmpty then some ""
        else
          match validateDomainHost auth with
          | none => none
          | some h => some (if h = "localhost".data then "" else ⟨h⟩)
      | _ => some ""
    else if specialSchemes.contains scheme then
      let tail := rest.dropWhile (fun c => c = '/' || c = '\\')
      let auth := takeAuthority tail true
      match parseHostPort (afterLastAt auth) true (auth.contains '@') with
      | none => none
      | some h => some ⟨h⟩
    else
      match rest with
      | '/' :: '/' :: tail =>
        let auth := takeAuthority tail false
        match parseHostPort (afterLastAt auth) false (auth.contains '@') with
        | none => none
        | some h => some ⟨h⟩
      | _ => some ""

example : parseHostname "https://example.com/x" = some "example.com" := by decide
example : parseHostname "https://sub.example.com" = some "sub.example.com" := by decide
example : parseHostname "https://notexample.com" = some "notexample.com" := by decide
example : parseHostname "not a url" = none := by decide
example : parseHostname "https://" = none := by decide
example : parseHostname "HTTPS://u:p@WWW.Example.COM:8080/p?q#f" = some "www.example.com" := by decide
example : parseHostname "http:example.com" = some "example.com" := by decide
example : parseHostname "file:///p" = some "" := by decide
example : parseHostname "file://localhost/p" = some "" := by decide
example : parseHostname "mailto:someone" = some "" := by decide
example : parseHostname "https://exa mple.com" = none := by decide
example : parseHostname "https://a.com:99999" = none := by decide

/-- The `replace(/^www\./, '')`: strip one leading `www.`. -/
def stripWww (h : String) : String :=
  if "www.".data.isPrefixOf h.data then ⟨h.data.drop 4⟩ else h

/-- The `isExcludedDomain` from `src/background.ts`: empty exclusion list short
circuits to `false`; a URL whose hostname cannot be parsed is not excluded
(the `catch` branch); otherwise the hostname and each excluded entry are
normalised by stripping a leading `www.` and the URL is excluded iff the
hostname equals an entry or ends with `"." ++` an entry. -/
def isExcludedDomain (excludedDomains : List String) (url : String) : Bool :=
  if excludedDomains.isEmpty then false
  else
    match parseHostname url with
    | none => false
    | some hostname =>
      let normalizedHostname := stripWww hostname
      excludedDomains.any fun domain =>
        let cleanDomain := stripWww domain
        normalizedHostname == cleanDomain ||
        ('.' :: cleanDomain.data).isSuffixOf normalizedHostname.data

example : isExcludedDomain ["example.com"] "https://example.com/x" = true := by decide
example : isExcludedDomain ["example.com"] "https://sub.example.com" = true := by decide
example : isExcludedDomain ["example.com"] "https://notexample.com" = false := by decide
example : isExcludedDomain ["www.example.com"] "https://example.com" = true := by decide
example : isExcludedDomain ["example.com"] "::not-a-url::" = false := by decide
example : isExcludedDomain [] "https://example.com" = false := by decide

/-- The `extractUrls` from `src/utils/urlChecker.ts`: split on line breaks, trim
each line, drop empty lines, keep the lines accepted by `isValidUrl` at the
given sensitivity, and map the survivors through `normalizeUrl`. -/
def extractUrls (text : String) (patternType : String := "standard") : List String :=
  let lines := ((splitLines text).map jsTrimStr).filter (fun line => line ≠ "")
  (lines.filter (fun line => isValidUrl line patternType)).map normalizeUrl

example : extractUrls "example.com\nvisit x\n\n www.b.org " =
    ["https://example.com", "https://www.b.org"] := by decide
example : extractUrls "example.com today" = ["https://example.com today"] := by decide
example : extractUrls "a.com\r\na.com" = ["https://a.com", "https://a.com"] := by decide

/-!
## The intent arbiter's message handling (`src/background.ts`)

The arbiter's settings object, its URL-opening queue, and the effect each
incoming intent has on that queue.  The queue is represented as the list of
URLs passed to `queueUrlForOpening`-driven `openingQueue.push` calls, in
order. -/

/-- The arbiter's settings object (the fields the intent handling reads). -/
structure Settings where
  enableExtension : Bool
  activateTabs : Bool
  supportMultipleUrls : Bool
  excludedDomains : List String
  directLinkOpen : Bool
  urlPatternType : String
deriving DecidableEq, Repr

/-- The default settings from `src/background.ts`. -/
def defaultSettings : Settings :=
  { enableExtension := true, activateTabs := false, supportMultipleUrls := true,
    excludedDomains := [], directLinkOpen := true, urlPatternType := "standard" }

/-- The `queueUrlForOpening`: push the URL onto the queue unless the extension is
disabled (the guard at the top of the function). -/
def queueUrlForOpening (s : Settings) (q : List String) (url : String) :
    List String :=
  if !s.enableExtension then q else q ++ [url]

/-- The `openMultipleUrls`: extract candidate URLs from the text at the configured
sensitivity and queue every non-excluded one, in order. -/
def openMultipleUrlsFn (s : Settings) (q : List String) (text : String) :
    List String :=
  let urls := extractUrls text s.urlPatternType
  if urls.length > 0 then
    (urls.filter fun url => !isExcludedDomain s.excludedDomains url).foldl
      (fun acc url => queueUrlForOpening s acc url) q
  else q

/-- The response of the `checkSelection` message branch. -/
structure SelectionResponse where
  showContextMenu : Bool
  directOpen : Bool
deriving DecidableEq, Repr

/-- The `checkSelection` branch of the `onMessage` listener: validity is
`enableExtension && isValidUrl(text)` (with the *default* `standard`
sensitivity), direct-open adds `directLinkOpen`; when direct-open applies
and multi-URL support is on, the text is handed to `openMultipleUrls`.
Returns the new queue and the response sent back. -/
def handleCheckSelection (s : Settings) (q : List String) (text : String) :
    List String × SelectionResponse :=
  let isValid := s.enableExtension && isValidUrl text
  let directOpen := isValid && s.directLinkOpen
  let q' := if directOpen && s.supportMultipleUrls then openMultipleUrlsFn s q text else q
  (q', { showContextMenu := isValid && !s.directLinkOpen, directOpen := directOpen })

/-- The intents that can reach the arbiter: the `onMessage` actions that can
touch the queue, plus the context-menu click paths.  `menuMultiClick` is the
dedicated multi-URL menu entry (whose handler ends in `openMultipleUrls`,
directly on the fallback path or via a round trip through the content
script's `openMultipleUrls` message). -/
inductive Intent
  | checkSelection (text : String)
  | openMultipleUrlsMsg (text : String)
  | directLinkClick (url : String)
  | shouldOpenLink (url : String)
  | menuLinkClick (url : String)
  | menuSelectionClick (text : String)
  | menuMultiClick (text : String)
deriving DecidableEq, Repr

/-- The effect of one incoming intent on the opening queue, mirroring the
`onMessage` listener and the `contextMenus.onClicked` listener of
`src/background.ts`. -/
def handleIntent (s : Settings) (q : List String) : Intent → List String
  | .checkSelection text => (handleCheckSelection s q text).1
  | .openMultipleUrlsMsg text =>
      if s.enableExtension && s.supportMultipleUrls then openMultipleUrlsFn s q text
      else q
  | .directLinkClick url =>
      let shouldIntercept := s.enableExtension && s.directLinkOpen
      if shouldIntercept && !isExcludedDomain s.excludedDomains url then
        queueUrlForOpening s q url
      else q
  | .shouldOpenLink _ => q
  | .menuLinkClick url =>
      if !s.enableExtension then q
      else if !isExcludedDomain s.excludedDomains url then queueUrlForOpening s q url
      else q
  | .menuSelectionClick text =>
      if !s.enableExtension then q
      else if s.supportMultipleUrls then openMultipleUrlsFn s q text
      else q
  | .menuMultiClick text =>
      if !s.enableExtension then q
      else openMultipleUrlsFn s q text

example :
    handleCheckSelection defaultSettings [] "visit example.com today" =
      ([], { showContextMenu := false, directOpen := false }) := by decide
example :
    handleCheckSelection defaultSettings [] "example.com today" =
      (["https://example.com today"], { showContextMenu := false, directOpen := true }) := by
  decide

/-!
## The opening-queue event machine

`queueUrlForOpening` / `processUrlQueue` / `clearOpeningQueue` form an
asynchronous loop around the mutable `openingQueue` / `isProcessingQueue`
globals.  JavaScript is single-threaded, so the atomic units of execution
are the synchronous segments between `await` points; the machine below has
one transition per such segment:

* `enqueue`: a `queueUrlForOpening` call while enabled pushes the URL and,
  when `isProcessingQueue` is false, starts a fresh `processUrlQueue`
  invocation (a new processor at its loop head).  While disabled it is a
  no-op.
* `dequeue`: a processor at its loop head, with the extension enabled and
  the queue non-empty, shifts the head and synchronously issues
  `browserAPI.tabs.create` for it (this segment spans the loop condition,
  the `shift`, and `openUrlInNewTab` up to its first await; `enabled`
  cannot change inside it).
* `loopExit`: a processor at its loop head whose condition fails clears
  `isProcessingQueue` and finishes.
* `createDone` / `delayDone`: the tab-creation callback resolves, and the
  100 ms pacing delay resolves, returning the processor to its loop head.
* `setEnabled`: a `settingsUpdated` message flips `enableExtension`; a
  true→false transition runs `clearOpeningQueue` (queue emptied and
  `isProcessingQueue` reset — note the still-suspended processor is *not*
  cancelled); a false→true transition via `settingsUpdated` clears
  nothing, while the `loadSettings` reload path also clears the queue.

Ghost fields `enqueued` (every URL ever pushed, in order) and `created`
(every URL for which a tab-creation call was issued, in order) record the
history. -/

/-- The phase of one `processUrlQueue` invocation between awaits. -/
inductive ProcPhase
  | loopEntry
  | awaitCreate (url : String)
  | awaitDelay
deriving DecidableEq, Repr

/-- The arbiter's queue state: settings flag, the `openingQueue` and
`isProcessingQueue` globals, the multiset of live `processUrlQueue`
invocations, and the two ghost histories. -/
structure ArbState where
  enabled : Bool
  queue : List String
  isProcessing : Bool
  procs : List ProcPhase
  enqueued : List String
  created : List String
deriving DecidableEq, Repr

/-- Initial state: enabled, empty queue, no processor running. -/
def arbInit : ArbState :=
  { enabled := true, queue := [], isProcessing := false, procs := [],
    enqueued := [], created := [] }

/-- Number of tab-creation calls currently outstanding. -/
def inFlight (st : ArbState) : Nat :=
  st.procs.countP fun p => match p with | .awaitCreate _ => true | _ => false

/-- Labels of the machine's events. -/
inductive EvLabel
  | enqueue (url : String)
  | dequeue
  | loopExit
  | createDone
  | delayDone
  | setEnabled (b : Bool)
deriving DecidableEq, Repr

/-- One synchronous execution segment of the queue machinery. -/
inductive ArbStep : ArbState → EvLabel → ArbState → Prop
  | enqueueBusy (st : ArbState) (u : String) :
      st.enabled = true → st.isProcessing = true →
      ArbStep st (.enqueue u)
        { st with queue := st.queue ++ [u], enqueued := st.enqueued ++ [u] }
  | enqueueStart (st : ArbState) (u : String) :
      st.enabled = true → st.isProcessing = false →
      ArbStep st (.enqueue u)
        { st with queue := st.queue ++ [u], enqueued := st.enqueued ++ [u],
                  isProcessing := true, procs := st.procs ++ [.loopEntry] }
  | enqueueDisabled (st : ArbState) (u : String) :
      st.enabled = false →
      ArbStep st (.enqueue u) st
  | dequeueIssue (st : ArbState) (pre post : List ProcPhase) (u : String)
      (t : List String) :
      st.procs = pre ++ .loopEntry :: post → st.enabled = true →
      st.queue = u :: t →
      ArbStep st .dequeue
        { st with queue := t, created := st.created ++ [u],
                  procs := pre ++ .awaitCreate u :: post }
  | loopExit (st : ArbState) (pre post : List ProcPhase) :
      st.procs = pre ++ .loopEntry :: post →
      st.enabled = false ∨ st.queue = [] →
      ArbStep st .loopExit { st with procs := pre ++ post, isProcessing := false }
  | createDone (st : ArbState) (pre post : List ProcPhase) (u : String) :
      st.procs = pre ++ .awaitCreate u :: post →
      ArbStep st .createDone { st with procs := pre ++ .awaitDelay :: post }
  | delayDone (st : ArbState) (pre post : List ProcPhase) :
      st.procs = pre ++ .awaitDelay :: post →
      ArbStep st .delayDone { st with procs := pre ++ .loopEntry :: post }
  | enable (st : ArbState) :
      st.enabled = false →
      ArbStep st (.setEnabled true) { st with enabled := true }
  | reloadEnable (st : ArbState) :
      st.enabled = false →
      ArbStep st (.setEnabled true)
        { st with enabled := true, queue := [], isProcessing := false }
  | disable (st : ArbState) :
      st.enabled = true →
      ArbStep st (.setEnabled false)
        { st with enabled := false, queue := [], isProcessing := false }

/-- Execution: a sequence of steps with its trace of labels. -/
inductive ReachesVia : ArbState → List EvLabel → ArbState → Prop
  | refl (st : ArbState) : ReachesVia st [] st
  | tail {st₁ st₂ st₃ : ArbState} {tr : List EvLabel} {l : EvLabel} :
      ReachesVia st₁ tr st₂ → ArbStep st₂ l st₃ →
      ReachesVia st₁ (tr ++ [l]) st₃

/-!
## The page-side click classifier (content script)

`handleMouseDown` records the down target/time and overwrites
`lastMouseX/lastMouseY` with the down coordinates; `handleMouseMove`
overwrites `lastMouseX/lastMouseY` on every move; `handleMouseUp` computes
`clickDistance = Math.sqrt((upX - lastMouseX)² + (upY - lastMouseY)²)` and
`clickDuration = now - mouseDownTime` and classifies the interaction as an
intentional right click iff `clickDistance < CLICK_DISTANCE_THRESHOLD`,
`clickDuration < CLICK_TIME_THRESHOLD`, and the up target equals, contains,
or is contained in the down target.

Coordinates (`MouseEvent.clientX/Y` in CSS pixels) and times
(`Date.now()` in ms) are modelled as integers.  For integer inputs,
`Math.sqrt(d) < T` with an integer threshold `T` is equivalent to
`d < T²` (IEEE-754 square root is correctly rounded and monotone and `T`
and `T²` are exactly representable), so the classifier compares squared
distances.  DOM targets are an abstract type with `Node.contains` as an
abstract boolean relation (it is reflexive in the DOM, but the source also
tests `===` separately, so no assumption on it is needed). -/

/-- The content script's mouse-tracking state. -/
structure DetectorState (T : Type) where
  lastMouseX : Int
  lastMouseY : Int
  mouseDownTime : Int
  mouseDownTarget : Option T
deriving DecidableEq, Repr

/-- The `handleMouseDown` for a secondary-button press. -/
def handleMouseDown {T : Type} (st : DetectorState T) (x y time : Int)
    (tgt : T) : DetectorState T :=
  { st with mouseDownTarget := some tgt, mouseDownTime := time,
            lastMouseX := x, lastMouseY := y }

/-- The `handleMouseMove`. -/
def handleMouseMove {T : Type} (st : DetectorState T) (x y : Int) :
    DetectorState T :=
  { st with lastMouseX := x, lastMouseY := y }

/-- The `isIntentionalRightClick` computation of `handleMouseUp` for a
secondary-button release at `(x, y)` at time `time` on target `tgt`. -/
def classifyMouseUp {T : Type} [DecidableEq T] (contains : T → T → Bool)
    (distThreshold timeThreshold : Int) (st : DetectorState T)
    (x y time : Int) (tgt : T) : Bool :=
  let distSq := (x - st.lastMouseX) ^ 2 + (y - st.lastMouseY) ^ 2
  let duration := time - st.mouseDownTime
  let sameTarget :=
    match st.mouseDownTarget with
    | some d => decide (tgt = d) || contains tgt d || contains d tgt
    | none => false
  decide (distSq < distThreshold ^ 2) && decide (duration < timeThreshold) && sameTarget

/-!
## Helper lemmas -/

lemma foldl_fixed_acc {α β : Type} (q : α) (l : List β) :
    l.foldl (fun acc _ => acc) q = q := by
  induction l generalizing q with
  | nil => rfl
  | cons b l ih => simp [List.foldl_cons, ih q]

/-- A disabled extension leaves `openMultipleUrls` without effect. -/
lemma openMultipleUrlsFn_disabled (s : Settings) (q : List String)
    (text : String) (h : s.enableExtension = false) :
    openMultipleUrlsFn s q text = q := by
  unfold openMultipleUrlsFn queueUrlForOpening
  simp only [h]
  split <;> simp [foldl_fixed_acc]

/-- C1: with `enabled = false` no intent changes the queue. -/
theorem C1_disabled_drops_all_intents (s : Settings) (q : List String)
    (i : Intent) (h : s.enableExtension = false) :
    handleIntent s q i = q := by
  cases i <;>
    simp [handleIntent, handleCheckSelection, queueUrlForOpening,
          openMultipleUrlsFn_disabled, h]

theorem C1_witness :
    ({ defaultSettings with enableExtension := false } : Settings).enableExtension = false ∧
    handleIntent { defaultSettings with enableExtension := false }
      ["https://old.example"] (.menuLinkClick "https://a.example") =
      ["https://old.example"] := by
  exact ⟨rfl, C1_disabled_drops_all_intents _ _ _ rfl⟩

/-- The FIFO history invariant: the tab-creation history followed by the
pending queue is an order-preserving subsequence of the enqueue history. -/
def FifoInv (st : ArbState) : Prop :=
  List.Sublist (st.created ++ st.queue) st.enqueued

/-- The invariant behind the single-flight property, meaningful only while
no settings change has occurred: at most one processor is alive, a cleared
`isProcessingQueue` means no processor is alive, and the extension is
enabled. -/
def SingleFlightInv (st : ArbState) : Prop :=
  st.procs.length ≤ 1 ∧ (st.isProcessing = false → st.procs = []) ∧
  st.enabled = true

lemma fifoInv_step {st st' : ArbState} {l : EvLabel} (h : ArbStep st l st')
    (inv : FifoInv st) : FifoInv st' := by
  cases h with
  | enqueueBusy u he hp =>
      show List.Sublist (st.created ++ (st.queue ++ [u])) (st.enqueued ++ [u])
      rw [← List.append_assoc]
      exact List.Sublist.append inv (List.Sublist.refl [u])
  | enqueueStart u he hp =>
      show List.Sublist (st.created ++ (st.queue ++ [u])) (st.enqueued ++ [u])
      rw [← List.append_assoc]
      exact List.Sublist.append inv (List.Sublist.refl [u])
  | enqueueDisabled u he => exact inv
  | dequeueIssue pre post u t hpr he hq =>
      show List.Sublist ((st.created ++ [u]) ++ t) st.enqueued
      rw [List.append_assoc]
      unfold FifoInv at inv
      rw [hq] at inv
      exact inv
  | loopExit pre post hpr hcond => exact inv
  | createDone pre post u hpr => exact inv
  | delayDone pre post hpr => exact inv
  | enable he => exact inv
  | reloadEnable he =>
      show List.Sublist (st.created ++ []) st.enqueued
      rw [List.append_nil]
      exact List.Sublist.trans (List.sublist_append_left _ _) inv
  | disable he =>
      show List.Sublist (st.created ++ []) st.enqueued
      rw [List.append_nil]
      exact List.Sublist.trans (List.sublist_append_left _ _) inv

lemma singleFlightInv_step {st st' : ArbState} {l : EvLabel}
    (h : ArbStep st l st') (hl : ∀ b, l ≠ EvLabel.setEnabled b)
    (inv : SingleFlightInv st) : SingleFlightInv st' := by
  obtain ⟨hlen, hidle, hen⟩ := inv
  cases h with
  | enqueueBusy u he hp =>
      exact ⟨hlen, fun hf => by simp [hp] at hf, hen⟩
  | enqueueStart u he hp =>
      have hnil : st.procs = [] := hidle hp
      refine ⟨?_, fun hf => by simp at hf, hen⟩
      show (st.procs ++ [ProcPhase.loopEntry]).length ≤ 1
      rw [hnil]
      simp
  | enqueueDisabled u he => simp [hen] at he
  | dequeueIssue pre post u t hpr he hq =>
      refine ⟨?_, fun hf => ?_, hen⟩
      · show (pre ++ ProcPhase.awaitCreate u :: post).length ≤ 1
        rw [hpr] at hlen
        simp only [List.length_append, List.length_cons] at hlen ⊢
        omega
      · have h2 := hidle hf
        rw [hpr] at h2
        simp at h2
  | loopExit pre post hpr hcond =>
      rw [hpr] at hlen
      simp only [List.length_append, List.length_cons] at hlen
      have hpre : pre = [] := List.length_eq_zero.mp (by omega)
      have hpost : post = [] := List.length_eq_zero.mp (by omega)
      subst hpre hpost
      exact ⟨by simp, fun _ => rfl, hen⟩
  | createDone pre post u hpr =>
      refine ⟨?_, fun hf => ?_, hen⟩
      · show (pre ++ ProcPhase.awaitDelay :: post).length ≤ 1
        rw [hpr] at hlen
        simp only [List.length_append, List.length_cons] at hlen ⊢
        omega
      · have h2 := hidle hf
        rw [hpr] at h2
        simp at h2
  | delayDone pre post hpr =>
      refine ⟨?_, fun hf => ?_, hen⟩
      · show (pre ++ ProcPhase.loopEntry :: post).length ≤ 1
        rw [hpr] at hlen
        simp only [List.length_append, List.length_cons] at hlen ⊢
        omega
      · have h2 := hidle hf
        rw [hpr] at h2
        simp at h2
  | enable he => exact absurd rfl (hl true)
  | reloadEnable he => exact absurd rfl (hl true)
  | disable he => exact absurd rfl (hl false)

lemma fifoInv_of_reaches {st₀ st : ArbState} {tr : List EvLabel}
    (h : ReachesVia st₀ tr st) (h0 : FifoInv st₀) : FifoInv st := by
  induction h with
  | refl => exact h0
  | tail hr hstep ih => exact fifoInv_step hstep ih

lemma singleFlightInv_of_reaches {st₀ st : ArbState} {tr : List EvLabel}
    (h : ReachesVia st₀ tr st) (h0 : SingleFlightInv st₀)
    (hns : ∀ b, EvLabel.setEnabled b ∉ tr) : SingleFlightInv st := by
  induction h with
  | refl => exact h0
  | tail hr hstep ih =>
      rename_i tr' l
      have hmem : ∀ b, EvLabel.setEnabled b ∉ tr' := by
        intro b hb
        exact hns b (List.mem_append.mpr (Or.inl hb))
      have hne : ∀ b, l ≠ EvLabel.setEnabled b := by
        intro b hb
        exact hns b (List.mem_append.mpr (Or.inr (by rw [hb]; simp)))
      exact singleFlightInv_step hstep hne (ih hmem)

lemma inFlight_le_procs_length (st : ArbState) : inFlight st ≤ st.procs.length :=
  List.countP_le_length _

/-- C2 (amended): along every execution the created-order plus the pending
queue forms a subsequence of the enqueue order (strict FIFO, nothing
reordered), and along every execution that contains no enable/disable
settings transition at most one tab-creation call is outstanding at any
time. -/
theorem C2_fifo_and_single_flight (st : ArbState) (tr : List EvLabel)
    (h : ReachesVia arbInit tr st) :
    List.Sublist (st.created ++ st.queue) st.enqueued ∧
    ((∀ b, EvLabel.setEnabled b ∉ tr) → inFlight st ≤ 1) := by
  constructor
  · exact fifoInv_of_reaches h (List.Sublist.refl _)
  · intro hns
    have hinv := singleFlightInv_of_reaches h ⟨by simp [arbInit], fun _ => rfl, rfl⟩ hns
    exact le_trans (inFlight_le_procs_length st) hinv.1

theorem C2_fifo_and_single_flight_witness :
    List.Sublist (arbInit.created ++ arbInit.queue) arbInit.enqueued ∧
    inFlight arbInit ≤ 1 :=
  ⟨(C2_fifo_and_single_flight arbInit [] (ReachesVia.refl arbInit)).1,
   (C2_fifo_and_single_flight arbInit [] (ReachesVia.refl arbInit)).2
     (by intro b hb; simp at hb)⟩

/-- C2 (counterexample): with an enable/disable transition in the
interleaving the single-flight invariant fails — after `disable` resets
`isProcessingQueue` while a tab-creation is still awaited, a re-enable and
a fresh enqueue start a second `processUrlQueue`, and two tab-creation
calls are outstanding simultaneously. -/
theorem C2_single_flight_counterexample :
    ReachesVia arbInit
      [.enqueue "https://a.example", .dequeue, .setEnabled false,
       .setEnabled true, .enqueue "https://b.example", .dequeue]
      { enabled := true, queue := [], isProcessing := true,
        procs := [.awaitCreate "https://a.example",
                  .awaitCreate "https://b.example"],
        enqueued := ["https://a.example", "https://b.example"],
        created := ["https://a.example", "https://b.example"] } ∧
    inFlight
      { enabled := true, queue := [], isProcessing := true,
        procs := [.awaitCreate "https://a.example",
                  .awaitCreate "https://b.example"],
        enqueued := ["https://a.example", "https://b.example"],
        created := ["https://a.example", "https://b.example"] } = 2 := by
  constructor
  · exact ReachesVia.tail (ReachesVia.tail (ReachesVia.tail (ReachesVia.tail
      (ReachesVia.tail (ReachesVia.tail (ReachesVia.refl arbInit)
        (ArbStep.enqueueStart arbInit "https://a.example" rfl rfl))
        (ArbStep.dequeueIssue _ [] [] "https://a.example" [] rfl rfl rfl))
        (ArbStep.disable _ rfl))
        (ArbStep.enable _ rfl))
        (ArbStep.enqueueStart _ "https://b.example" rfl rfl))
        (ArbStep.dequeueIssue _ [.awaitCreate "https://a.example"] []
          "https://b.example" [] rfl rfl rfl)
  · rfl

lemma not_created_of_reaches {st₀ st : ArbState} {tr : List EvLabel}
    {u : String} (h : ReachesVia st₀ tr st) (hq : u ∉ st₀.queue)
    (hc : u ∉ st₀.created) (hen : ∀ v, EvLabel.enqueue v ∈ tr → v ≠ u) :
    u ∉ st.queue ∧ u ∉ st.created := by
  induction h with
  | refl => exact ⟨hq, hc⟩
  | tail hr hstep ih =>
      rename_i tr' l
      have htr : ∀ v, EvLabel.enqueue v ∈ tr' → v ≠ u := fun v hv =>
        hen v (List.mem_append.mpr (Or.inl hv))
      obtain ⟨ihq, ihc⟩ := ih htr
      cases hstep with
      | enqueueBusy v he hp =>
          have hvu : v ≠ u := hen v (List.mem_append.mpr (Or.inr (by simp)))
          refine ⟨?_, ihc⟩
          intro hmem
          rcases List.mem_append.mp hmem with hq' | hv'
          · exact ihq hq'
          · exact hvu (List.mem_singleton.mp hv').symm
      | enqueueStart v he hp =>
          have hvu : v ≠ u := hen v (List.mem_append.mpr (Or.inr (by simp)))
          refine ⟨?_, ihc⟩
          intro hmem
          rcases List.mem_append.mp hmem with hq' | hv'
          · exact ihq hq'
          · exact hvu (List.mem_singleton.mp hv').symm
      | enqueueDisabled v he => exact ⟨ihq, ihc⟩
      | dequeueIssue pre post w t hpr he hq2 =>
          rw [hq2] at ihq
          refine ⟨fun hmem => ihq (List.mem_cons_of_mem w hmem), ?_⟩
          intro hmem
          rcases List.mem_append.mp hmem with hc' | hw'
          · exact ihc hc'
          · exact ihq (by rw [List.mem_singleton.mp hw']; exact List.mem_cons_self w t)
      | loopExit pre post hpr hcond => exact ⟨ihq, ihc⟩
      | createDone pre post w hpr => exact ⟨ihq, ihc⟩
      | delayDone pre post hpr => exact ⟨ihq, ihc⟩
      | enable he => exact ⟨ihq, ihc⟩
      | reloadEnable he => exact ⟨by simp, ihc⟩
      | disable he => exact ⟨by simp, ihc⟩

/-- C9: a reachable state with three URLs queued behind an in-flight open
(none of the three yet opened); disabling clears the queue to length 0 in
that very step, and no continuation that does not re-enqueue those URLs
ever issues a tab-creation for any of them — re-enabling included. -/
theorem C9_disable_discards_queued_urls :
    ReachesVia arbInit
      [.enqueue "https://zero.example", .dequeue, .enqueue "https://one.example",
       .enqueue "https://two.example", .enqueue "https://three.example"]
      { enabled := true,
        queue := ["https://one.example", "https://two.example", "https://three.example"],
        isProcessing := true, procs := [.awaitCreate "https://zero.example"],
        enqueued := ["https://zero.example", "https://one.example",
                     "https://two.example", "https://three.example"],
        created := ["https://zero.example"] } ∧
    ("https://one.example" ∉
        (["https://zero.example"] : List String) ∧
      "https://two.example" ∉ (["https://zero.example"] : List String) ∧
      "https://three.example" ∉ (["https://zero.example"] : List String)) ∧
    ArbStep
      { enabled := true,
        queue := ["https://one.example", "https://two.example", "https://three.example"],
        isProcessing := true, procs := [.awaitCreate "https://zero.example"],
        enqueued := ["https://zero.example", "https://one.example",
                     "https://two.example", "https://three.example"],
        created := ["https://zero.example"] }
      (.setEnabled false)
      { enabled := false, queue := [], isProcessing := false,
        procs := [.awaitCreate "https://zero.example"],
        enqueued := ["https://zero.example", "https://one.example",
                     "https://two.example", "https://three.example"],
        created := ["https://zero.example"] } ∧
    (∀ (tr : List EvLabel) (st : ArbState),
      ReachesVia
        { enabled := false, queue := [], isProcessing := false,
          procs := [.awaitCreate "https://zero.example"],
          enqueued := ["https://zero.example", "https://one.example",
                       "https://two.example", "https://three.example"],
          created := ["https://zero.example"] } tr st →
      (∀ v, EvLabel.enqueue v ∈ tr →
        v ≠ "https://one.example" ∧ v ≠ "https://two.example" ∧
        v ≠ "https://three.example") →
      "https://one.example" ∉ st.created ∧ "https://two.example" ∉ st.created ∧
      "https://three.example" ∉ st.created) := by
  refine ⟨?_, ⟨by decide, by decide, by decide⟩, ArbStep.disable _ rfl, ?_⟩
  · exact ReachesVia.tail (ReachesVia.tail (ReachesVia.tail (ReachesVia.tail
      (ReachesVia.tail (ReachesVia.refl arbInit)
        (ArbStep.enqueueStart arbInit "https://zero.example" rfl rfl))
        (ArbStep.dequeueIssue _ [] [] "https://zero.example" [] rfl rfl rfl))
        (ArbStep.enqueueBusy _ "https://one.example" rfl rfl))
        (ArbStep.enqueueBusy _ "https://two.example" rfl rfl))
        (ArbStep.enqueueBusy _ "https://three.example" rfl rfl)
  · intro tr st hr hv
    exact ⟨(not_created_of_reaches hr (by simp) (by decide)
              fun v hm => (hv v hm).1).2,
           (not_created_of_reaches hr (by simp) (by decide)
              fun v hm => (hv v hm).2.1).2,
           (not_created_of_reaches hr (by simp) (by decide)
              fun v hm => (hv v hm).2.2).2⟩

/-!
## Trimming lemmas and the URL-lexer theorems -/

lemma head?_dropWhile_false {α : Type} {p : α → Bool} {l : List α} {c : α}
    (h : (l.dropWhile p).head? = some c) : p c = false := by
  induction l with
  | nil => simp [List.dropWhile] at h
  | cons a as ih =>
      rw [List.dropWhile_cons] at h
      by_cases hp : p a
      · rw [if_pos hp] at h
        exact ih h
      · rw [if_neg hp] at h
        simp only [List.head?_cons, Option.some.injEq] at h
        subst h
        simpa using hp

lemma dropWhile_dropWhile {α : Type} (p : α → Bool) (l : List α) :
    (l.dropWhile p).dropWhile p = l.dropWhile p := by
  induction l with
  | nil => rfl
  | cons a as ih =>
      rw [List.dropWhile_cons]
      by_cases hp : p a
      · rw [if_pos hp]
        exact ih
      · rw [if_neg hp, List.dropWhile_cons, if_neg hp]

lemma dropWhile_eq_self_of_head? {α : Type} {p : α → Bool} {l : List α}
    (h : ∀ c, l.head? = some c → p c = false) : l.dropWhile p = l := by
  cases l with
  | nil => rfl
  | cons a as =>
      rw [List.dropWhile_cons, if_neg]
      intro hp
      rw [h a rfl] at hp
      cases hp

lemma getLast?_of_suffix {α : Type} {s l : List α} (h : List.IsSuffix s l)
    (hs : s ≠ []) : s.getLast? = l.getLast? := by
  obtain ⟨t, rfl⟩ := h
  exact (List.getLast?_append_of_ne_nil t hs).symm

/-- The head of a trimmed list, read from the right (i.e. its last element),
is not whitespace. -/
lemma jsTrim_reverse_head {l : List Char} {c : Char}
    (h : (jsTrim l).reverse.head? = some c) : jsWs c = false := by
  unfold jsTrim at h
  rw [List.reverse_reverse] at h
  exact head?_dropWhile_false h

/-- The head of a trimmed list is not whitespace. -/
lemma jsTrim_head {l : List Char} {c : Char}
    (h : (jsTrim l).head? = some c) : jsWs c = false := by
  unfold jsTrim at h
  rw [List.head?_reverse] at h
  set B := ((l.dropWhile jsWs).reverse).dropWhile jsWs with hB
  have hBne : B ≠ [] := by
    intro hnil
    rw [hnil] at h
    cases h
  have h1 : B.getLast? = (l.dropWhile jsWs).reverse.getLast? :=
    getLast?_of_suffix (List.dropWhile_suffix jsWs) hBne
  rw [h1, List.getLast?_reverse] at h
  exact head?_dropWhile_false h

/-- Trimming is idempotent. -/
lemma jsTrim_idem (l : List Char) : jsTrim (jsTrim l) = jsTrim l := by
  have h1 : (jsTrim l).dropWhile jsWs = jsTrim l :=
    dropWhile_eq_self_of_head? fun c hc => jsTrim_head hc
  have h2 : (jsTrim l).reverse.dropWhile jsWs = (jsTrim l).reverse :=
    dropWhile_eq_self_of_head? fun c hc => jsTrim_reverse_head hc
  show (((jsTrim l).dropWhile jsWs).reverse.dropWhile jsWs).reverse = jsTrim l
  rw [h1, h2, List.reverse_reverse]

/-- Prepending a non-empty, whitespace-free list to a trimmed list yields a
trimmed list. -/
lemma jsTrim_prepend {pre : List Char} (l : List Char)
    (hpre : ∀ c ∈ pre, jsWs c = false) (hne : pre ≠ []) :
    jsTrim (pre ++ jsTrim l) = pre ++ jsTrim l := by
  have h1 : (pre ++ jsTrim l).dropWhile jsWs = pre ++ jsTrim l := by
    refine dropWhile_eq_self_of_head? fun c hc => ?_
    rw [List.head?_append_of_ne_nil _ hne] at hc
    cases pre with
    | nil => exact absurd rfl hne
    | cons a as =>
        simp only [List.head?_cons, Option.some.injEq] at hc
        rw [← hc]
        exact hpre a (List.mem_cons_self a as)
  have h2 : (pre ++ jsTrim l).reverse.dropWhile jsWs = (pre ++ jsTrim l).reverse := by
    refine dropWhile_eq_self_of_head? fun c hc => ?_
    rw [List.reverse_append] at hc
    by_cases hw : jsTrim l = []
    · rw [hw] at hc
      simp only [List.reverse_nil, List.nil_append] at hc
      have hmem : c ∈ pre := by
        have h1 : c ∈ pre.reverse := by
          cases hrev : pre.reverse with
          | nil => rw [hrev] at hc; cases hc
          | cons a as =>
              rw [hrev] at hc
              simp only [List.head?_cons, Option.some.injEq] at hc
              rw [← hc]
              exact List.mem_cons_self a as
        exact List.mem_reverse.mp h1
      exact hpre c hmem
    · rw [List.head?_append_of_ne_nil _ (by simpa using hw)] at hc
      exact jsTrim_reverse_head hc
  show (((pre ++ jsTrim l).dropWhile jsWs).reverse.dropWhile jsWs).reverse =
    pre ++ jsTrim l
  rw [h1, h2, List.reverse_reverse]

/-- The `startsWithCI` as a prefix statement about the lowercased string. -/
lemma startsWithCI_iff {pat s : List Char} :
    startsWithCI pat s = true ↔ List.IsPrefix pat (s.map Char.toLower) := by
  unfold startsWithCI
  exact List.isPrefixOf_iff_prefix

lemma hasExplicitScheme_http_append (t : List Char) :
    hasExplicitScheme ("http://".data ++ t) = true := by
  have h : startsWithCI "http://".data ("http://".data ++ t) = true := by
    rw [startsWithCI_iff, List.map_append]
    have hm : "http://".data.map Char.toLower = "http://".data := by decide
    rw [hm]
    exact List.prefix_append _ _
  unfold hasExplicitScheme
  rw [h]
  simp

lemma hasExplicitScheme_https_append (t : List Char) :
    hasExplicitScheme ("https://".data ++ t) = true := by
  have h : startsWithCI "https://".data ("https://".data ++ t) = true := by
    rw [startsWithCI_iff, List.map_append]
    have hm : "https://".data.map Char.toLower = "https://".data := by decide
    rw [hm]
    exact List.prefix_append _ _
  unfold hasExplicitScheme
  rw [h]
  simp

/-- Branch characterisation of `normalizeUrl`: scheme present. -/
lemma normalizeUrl_scheme {u : String}
    (hs : hasExplicitScheme (jsTrim u.data) = true) :
    normalizeUrl u = ⟨jsTrim u.data⟩ := by
  unfold normalizeUrl
  exact if_pos hs

/-- Branch characterisation of `normalizeUrl`: no scheme, `localhost` prefix. -/
lemma normalizeUrl_localhost {u : String}
    (hs : ¬hasExplicitScheme (jsTrim u.data) = true)
    (hl : hasLocalhostStart (jsTrim u.data) = true) :
    normalizeUrl u = ⟨"http://".data ++ jsTrim u.data⟩ := by
  unfold normalizeUrl
  rw [if_neg hs, if_pos hl]
  rfl

/-- Branch characterisation of `normalizeUrl`: neither scheme nor localhost. -/
lemma normalizeUrl_other {u : String}
    (hs : ¬hasExplicitScheme (jsTrim u.data) = true)
    (hl : ¬hasLocalhostStart (jsTrim u.data) = true) :
    normalizeUrl u = ⟨"https://".data ++ jsTrim u.data⟩ := by
  unfold normalizeUrl
  rw [if_neg hs, if_neg hl]
  rfl

/-- C6: `normalizeUrl` is idempotent. -/
theorem C6_normalizeUrl_idempotent (u : String) :
    normalizeUrl (normalizeUrl u) = normalizeUrl u := by
  have hhttpWs : ∀ c ∈ "http://".data, jsWs c = false := by decide
  have hhttpsWs : ∀ c ∈ "https://".data, jsWs c = false := by decide
  by_cases hs : hasExplicitScheme (jsTrim u.data) = true
  · rw [normalizeUrl_scheme hs]
    have hd : (String.mk (jsTrim u.data)).data = jsTrim u.data := rfl
    have hs' : hasExplicitScheme (jsTrim (String.mk (jsTrim u.data)).data) = true := by
      rw [hd, jsTrim_idem]
      exact hs
    rw [normalizeUrl_scheme hs', hd, jsTrim_idem]
  · by_cases hl : hasLocalhostStart (jsTrim u.data) = true
    · rw [normalizeUrl_localhost hs hl]
      have hd : (String.mk ("http://".data ++ jsTrim u.data)).data =
          "http://".data ++ jsTrim u.data := rfl
      have htr : jsTrim ("http://".data ++ jsTrim u.data) =
          "http://".data ++ jsTrim u.data :=
        jsTrim_prepend u.data hhttpWs (by decide)
      have hs' : hasExplicitScheme
          (jsTrim (String.mk ("http://".data ++ jsTrim u.data)).data) = true := by
        rw [hd, htr]
        exact hasExplicitScheme_http_append _
      rw [normalizeUrl_scheme hs', hd, htr]
    · rw [normalizeUrl_other hs hl]
      have hd : (String.mk ("https://".data ++ jsTrim u.data)).data =
          "https://".data ++ jsTrim u.data := rfl
      have htr : jsTrim ("https://".data ++ jsTrim u.data) =
          "https://".data ++ jsTrim u.data :=
        jsTrim_prepend u.data hhttpsWs (by decide)
      have hs' : hasExplicitScheme
          (jsTrim (String.mk ("https://".data ++ jsTrim u.data)).data) = true := by
        rw [hd, htr]
        exact hasExplicitScheme_https_append _
      rw [normalizeUrl_scheme hs', hd, htr]

/-- The `hasExplicitScheme` as a prefix statement about the lowercased string. -/
lemma hasExplicitScheme_iff {t : List Char} :
    hasExplicitScheme t = true ↔
      (List.IsPrefix "http://".data (t.map Char.toLower) ∨
       List.IsPrefix "https://".data (t.map Char.toLower) ∨
       List.IsPrefix "file://".data (t.map Char.toLower)) := by
  unfold hasExplicitScheme
  rw [Bool.or_eq_true, Bool.or_eq_true, startsWithCI_iff, startsWithCI_iff,
    startsWithCI_iff, or_assoc]

/-- The `hasLocalhostStart` as a prefix statement about the lowercased string. -/
lemma hasLocalhostStart_iff {t : List Char} :
    hasLocalhostStart t = true ↔
      List.IsPrefix "localhost".data (t.map Char.toLower) := by
  unfold hasLocalhostStart
  exact startsWithCI_iff

/-- C5 (counterexample): `"http://example.com "` starts with `http://` but is
mutated by `normalizeUrl` (the source trims before the scheme check), so
scheme-bearing input is not always returned unchanged. -/
theorem C5_counterexample :
    "http://".data.isPrefixOf "http://example.com ".data = true ∧
    normalizeUrl "http://example.com " ≠ "http://example.com " ∧
    normalizeUrl "http://example.com " = "http://example.com" := by
  exact ⟨by decide, by decide, by decide⟩

/-- C5 (amended): for every string `u`, with `t` the JS-trimmed `u`: if `t`
starts case-insensitively with `http://`, `https://` or `file://` then
`normalizeUrl u = t`; otherwise if `t` starts case-insensitively with
`localhost` then the result is `"http://" ++ t`; otherwise it is
`"https://" ++ t`. -/
theorem C5_normalizeUrl_amended (u : String) :
    (List.IsPrefix "http://".data ((jsTrim u.data).map Char.toLower) ∨
     List.IsPrefix "https://".data ((jsTrim u.data).map Char.toLower) ∨
     List.IsPrefix "file://".data ((jsTrim u.data).map Char.toLower) →
      normalizeUrl u = jsTrimStr u) ∧
    (¬(List.IsPrefix "http://".data ((jsTrim u.data).map Char.toLower) ∨
       List.IsPrefix "https://".data ((jsTrim u.data).map Char.toLower) ∨
       List.IsPrefix "file://".data ((jsTrim u.data).map Char.toLower)) →
      List.IsPrefix "localhost".data ((jsTrim u.data).map Char.toLower) →
      normalizeUrl u = "http://" ++ jsTrimStr u) ∧
    (¬(List.IsPrefix "http://".data ((jsTrim u.data).map Char.toLower) ∨
       List.IsPrefix "https://".data ((jsTrim u.data).map Char.toLower) ∨
       List.IsPrefix "file://".data ((jsTrim u.data).map Char.toLower)) →
      ¬List.IsPrefix "localhost".data ((jsTrim u.data).map Char.toLower) →
      normalizeUrl u = "https://" ++ jsTrimStr u) := by
  refine ⟨fun h => ?_, fun hn hl => ?_, fun hn hl => ?_⟩
  · exact normalizeUrl_scheme (hasExplicitScheme_iff.mpr h)
  · rw [normalizeUrl_localhost (fun hh => hn (hasExplicitScheme_iff.mp hh))
      (hasLocalhostStart_iff.mpr hl)]
    rfl
  · rw [normalizeUrl_other (fun hh => hn (hasExplicitScheme_iff.mp hh))
      (fun hh => hl (hasLocalhostStart_iff.mp hh))]
    rfl

theorem C5_amended_witness :
    normalizeUrl " Example.com/page " = "https://" ++ jsTrimStr " Example.com/page " :=
  (C5_normalizeUrl_amended " Example.com/page ").2.2 (by decide) (by decide)

/-- Every `normalizeUrl` result carries an explicit scheme. -/
lemma normalizeUrl_hasScheme (u : String) :
    hasExplicitScheme (normalizeUrl u).data = true := by
  by_cases hs : hasExplicitScheme (jsTrim u.data) = true
  · rw [normalizeUrl_scheme hs]
    exact hs
  · by_cases hl : hasLocalhostStart (jsTrim u.data) = true
    · rw [normalizeUrl_localhost hs hl]
      exact hasExplicitScheme_http_append _
    · rw [normalizeUrl_other hs hl]
      exact hasExplicitScheme_https_append _

/-- C10: every string produced by `extractUrls` begins, case-insensitively,
with `http://`, `https://` or `file://`, for every input text and every
sensitivity profile. -/
theorem C10_extracted_urls_carry_scheme (text patternType url : String)
    (h : url ∈ extractUrls text patternType) :
    List.IsPrefix "http://".data (url.data.map Char.toLower) ∨
    List.IsPrefix "https://".data (url.data.map Char.toLower) ∨
    List.IsPrefix "file://".data (url.data.map Char.toLower) := by
  simp only [extractUrls, List.mem_map] at h
  obtain ⟨line, hline, rfl⟩ := h
  exact hasExplicitScheme_iff.mp (normalizeUrl_hasScheme line)

theorem C10_witness :
    List.IsPrefix "http://".data ("https://example.com".data.map Char.toLower) ∨
    List.IsPrefix "https://".data ("https://example.com".data.map Char.toLower) ∨
    List.IsPrefix "file://".data ("https://example.com".data.map Char.toLower) :=
  C10_extracted_urls_carry_scheme "example.com" "standard" "https://example.com"
    (by decide)

/-- C4: `extractUrls` is exactly the split/trim/drop-empty/filter/normalize
pipeline; the kept lines are an order-preserving sublist of the cleaned
lines, the output length equals the number of accepted lines (duplicates
kept, nothing deduplicated), and no accepted line is dropped. -/
theorem C4_extractUrls_pipeline (text patternType : String) :
    extractUrls text patternType =
      ((((splitLines text).map jsTrimStr).filter (fun line => line ≠ "")).filter
        (fun line => isValidUrl line patternType)).map normalizeUrl ∧
    List.Sublist
      ((((splitLines text).map jsTrimStr).filter (fun line => line ≠ "")).filter
        (fun line => isValidUrl line patternType))
      (((splitLines text).map jsTrimStr).filter (fun line => line ≠ "")) ∧
    (extractUrls text patternType).length =
      ((((splitLines text).map jsTrimStr).filter (fun line => line ≠ "")).filter
        (fun line => isValidUrl line patternType)).length ∧
    (∀ line ∈ ((splitLines text).map jsTrimStr).filter (fun line => line ≠ ""),
      isValidUrl line patternType = true →
        normalizeUrl line ∈ extractUrls text patternType) := by
  refine ⟨rfl, List.filter_sublist _, ?_, ?_⟩
  · simp [extractUrls]
  · intro line hmem hvalid
    simp only [extractUrls]
    exact List.mem_map_of_mem normalizeUrl (List.mem_filter.mpr ⟨hmem, hvalid⟩)

theorem C4_witness : extractUrls "a.com\nvisit x" "standard" = ["https://a.com"] := by
  rw [(C4_extractUrls_pipeline "a.com\nvisit x" "standard").1]
  decide

/-- C3: the exclusion predicate holds iff the parsed hostname, stripped of a
leading `www.`, equals a stripped excluded entry or has `"." ++` a stripped
entry as a suffix; a URL whose hostname does not parse is never excluded;
and the `example.com` examples behave as specified. -/
theorem C3_domain_exclusion :
    (∀ (excl : List String) (url : String),
      isExcludedDomain excl url = true ↔
        ∃ h, parseHostname url = some h ∧
          ∃ d ∈ excl,
            stripWww h = stripWww d ∨
            List.IsSuffix ('.' :: (stripWww d).data) (stripWww h).data) ∧
    (∀ (excl : List String) (url : String),
      parseHostname url = none → isExcludedDomain excl url = false) ∧
    isExcludedDomain ["example.com"] "https://example.com/x" = true ∧
    isExcludedDomain ["example.com"] "https://sub.example.com" = true ∧
    isExcludedDomain ["example.com"] "https://notexample.com" = false := by
  refine ⟨?_, ?_, by decide, by decide, by decide⟩
  · intro excl url
    unfold isExcludedDomain
    by_cases hemp : excl.isEmpty = true
    · have hnil : excl = [] := List.isEmpty_iff.mp hemp
      subst hnil
      simp
    · rw [if_neg hemp]
      cases hp : parseHostname url with
      | none => simp
      | some host =>
          simp only [List.any_eq_true, Bool.or_eq_true, beq_iff_eq,
            List.isSuffixOf_iff_suffix, Option.some.injEq]
          constructor
          · rintro ⟨d, hd, hcase⟩
            exact ⟨host, rfl, d, hd, hcase⟩
          · rintro ⟨h2, hh2, d, hd, hcase⟩
            subst hh2
            exact ⟨d, hd, hcase⟩
  · intro excl url hp
    unfold isExcludedDomain
    by_cases hemp : excl.isEmpty = true
    · rw [if_pos hemp]
    · rw [if_neg hemp, hp]

theorem C3_witness : isExcludedDomain ["example.com"] "not a url" = false :=
  C3_domain_exclusion.2.1 ["example.com"] "not a url" (by decide)

/-- C7 (counterexample): in the specified state (enabled, standard
sensitivity, direct open, multi-URL support) the `checkSelection` intent for
`"visit example.com today"` answers `directOpen := false` and enqueues
nothing — not the claimed `directOpen := true` with one URL enqueued. -/
theorem C7_counterexample :
    handleCheckSelection
      { enableExtension := true, activateTabs := false,
        supportMultipleUrls := true, excludedDomains := [],
        directLinkOpen := true, urlPatternType := "standard" } []
      "visit example.com today" =
      ([], { showContextMenu := false, directOpen := false }) ∧
    (({ showContextMenu := false, directOpen := false } : SelectionResponse) ≠
      { showContextMenu := false, directOpen := true } ∧
    ([] : List String).length ≠ 1) := by
  exact ⟨by decide, by decide, by decide⟩

/-- C7 (amended): the selection `"visit example.com today"` fails the
start-anchored standard URL test, so in that state `checkSelection` responds
`{showContextMenu := false, directOpen := false}` and enqueues no URL; the
claimed response would require the selection to begin with the URL, e.g.
`"example.com today"`, and even then the enqueued string is the whole
normalised line `"https://example.com today"`. -/
theorem C7_checkSelection_scenario :
    isValidUrl "visit example.com today" "standard" = false ∧
    handleCheckSelection
      { enableExtension := true, activateTabs := false,
        supportMultipleUrls := true, excludedDomains := [],
        directLinkOpen := true, urlPatternType := "standard" } []
      "visit example.com today" =
      ([], { showContextMenu := false, directOpen := false }) ∧
    handleCheckSelection
      { enableExtension := true, activateTabs := false,
        supportMultipleUrls := true, excludedDomains := [],
        directLinkOpen := true, urlPatternType := "standard" } []
      "example.com today" =
      (["https://example.com today"],
        { showContextMenu := false, directOpen := true }) := by
  exact ⟨by decide, by decide, by decide⟩

/-- C8 (counterexample): `handleMouseUp` measures the drag from the *last
tracked mouse position* (updated on every `mousemove`), not from the
pointer-down position: after a move to `(130, 100)` the up event at
`(130, 100)` is classified intentional although the down-to-up distance is
30 pixels, far above the 5-pixel threshold. -/
theorem C8_counterexample :
    classifyMouseUp (fun (_ _ : Unit) => false) 5 300
      (handleMouseMove
        (handleMouseDown
          { lastMouseX := 0, lastMouseY := 0, mouseDownTime := 0,
            mouseDownTarget := none } 100 100 0 ()) 130 100)
      130 100 150 () = true ∧
    ¬(((130 : Int) - 100) ^ 2 + ((100 : Int) - 100) ^ 2 < 5 ^ 2) := by
  exact ⟨by decide, by decide⟩

/-- C8 (amended): the up event is classified intentional iff the squared
distance from the last tracked pointer position (set by the pointer-down
and overwritten by every pointer-move) to the up position is below the
squared distance threshold, the elapsed time since pointer-down is below
the time threshold, and the up target equals/contains/is contained in the
down target; after a pointer-down with no intervening move the reference
point is the down position, and the two default-threshold examples behave
as specified. -/
theorem C8_click_classification (T : Type) [DecidableEq T]
    (contains : T → T → Bool) (distThreshold timeThreshold : Int)
    (st : DetectorState T) (x y time : Int) (tgt : T) :
    (classifyMouseUp contains distThreshold timeThreshold st x y time tgt = true ↔
      ((x - st.lastMouseX) ^ 2 + (y - st.lastMouseY) ^ 2 < distThreshold ^ 2 ∧
       time - st.mouseDownTime < timeThreshold ∧
       ∃ d, st.mouseDownTarget = some d ∧
         (tgt = d ∨ contains tgt d = true ∨ contains d tgt = true))) ∧
    (∀ (x₀ y₀ t₀ : Int) (tgt₀ : T),
      (handleMouseDown st x₀ y₀ t₀ tgt₀).lastMouseX = x₀ ∧
      (handleMouseDown st x₀ y₀ t₀ tgt₀).lastMouseY = y₀ ∧
      (handleMouseDown st x₀ y₀ t₀ tgt₀).mouseDownTime = t₀ ∧
      (handleMouseDown st x₀ y₀ t₀ tgt₀).mouseDownTarget = some tgt₀) ∧
    classifyMouseUp (fun (_ _ : Unit) => false) 5 300
      (handleMouseDown
        { lastMouseX := 0, lastMouseY := 0, mouseDownTime := 0,
          mouseDownTarget := none } 100 100 0 ()) 102 101 150 () = true ∧
    classifyMouseUp (fun (_ _ : Unit) => false) 5 300
      (handleMouseDown
        { lastMouseX := 0, lastMouseY := 0, mouseDownTime := 0,
          mouseDownTarget := none } 100 100 0 ()) 130 100 150 () = false := by
  refine ⟨?_, fun x₀ y₀ t₀ tgt₀ => ⟨rfl, rfl, rfl, rfl⟩, by decide, by decide⟩
  cases homt : st.mouseDownTarget with
  | none => simp [classifyMouseUp, homt]
  | some d =>
      simp [classifyMouseUp, homt, Bool.and_eq_true, Bool.or_eq_true,
        decide_eq_true_eq, and_assoc, or_assoc]

end OpenLink
